import Mathlib

/-!
Verification of the libreswan peer-identity core (src/lib/libswan/id.c) and
address-pool core (src/programs/pluto/addresspool.c) against their
natural-language specification.

The C code is shallowly embedded: C byte strings become `List Nat` (one entry
per byte), `unsigned` arithmetic is `Nat` with explicit `% 2^32` where the C
can wrap, the list sentinel `(unsigned)-1` becomes `Option.none`, and every
`passert` becomes an explicit `Except` error so that assertion failures are
observable values rather than undefined behaviour.  External collaborators
that are not part of the two source files (NSS DN decoding, `ttoaddr`,
`ttodata`, `atodn`) are represented by their inputs or modelled stubs, as
noted at each definition.
-/

/-! ## Byte-string helpers -/

/-- Byte string of an ASCII literal: one `Nat` per byte. -/
def strBytes (s : String) : List Nat := s.toList.map Char.toNat

/-! ## Identity kinds (enum ipsec_id_type, as used by id.c) -/

inductive IdKind where
  | fromcert  /- ID_FROMCERT -/
  | none_     /- ID_NONE -/
  | null_     /- ID_NULL -/
  | ipv4      /- ID_IPV4_ADDR -/
  | ipv6      /- ID_IPV6_ADDR -/
  | fqdn      /- ID_FQDN -/
  | userFqdn  /- ID_USER_FQDN -/
  | derDn     /- ID_DER_ASN1_DN -/
  | keyId     /- ID_KEY_ID -/
deriving DecidableEq, Repr

/-- Embedding of `struct id` (the Lean core already owns the name `Id`).
`name` is the byte chunk; `ipAddr` is an opaque numeric stand-in for
`ip_address`, adequate because `sameaddr` is bitwise comparison. -/
structure SwanId where
  kind : IdKind
  name : List Nat
  ipAddr : Nat
deriving DecidableEq, Repr

/-! ## atoid (id.c:54-157)

The branch dispatch and all in-function byte manipulation are embedded
exactly.  The four branches that delegate to an external parser (`atodn`,
`ttoaddr`, `ttodata`) are out of scope per spec section 1 and are represented
by a constructor carrying the exact text handed to that parser. -/

inductive AtoidId where
  | fromcert
  | none_
  | null_
  | derDnText (dnText : List Nat)   /- delegated to atodn (external) -/
  | ipLit (isV6 : Bool) (text : List Nat)  /- delegated to ttoaddr (external) -/
  | keyIdHex (hexText : List Nat)   /- @# : delegated to ttodata (external) -/
  | derDnHex (hexText : List Nat)   /- @~ : delegated to ttodata (external) -/
  | keyId (name : List Nat)         /- @[...] : computed in-function -/
  | fqdn (name : List Nat)
  | userFqdn (name : List Nat)
deriving DecidableEq, Repr

def atByte : Nat := Char.toNat '@'
def hashByte : Nat := Char.toNat '#'
def tildeByte : Nat := Char.toNat '~'
def lbrackByte : Nat := Char.toNat '['
def rbrackByte : Nat := Char.toNat ']'
def eqByte : Nat := Char.toNat '='
def colonByte : Nat := Char.toNat ':'
def dotByte : Nat := Char.toNat '.'

/-- Embedding of `atoid` (id.c:54).  `src` is the NUL-terminated C string as a
byte list (without the terminator).  In the `@[` branch, `len` is
`strlen(src + 2)` and the C tests `src[len + 1]` (the final byte of `src`);
when that byte is `]` it is overwritten with NUL and `len` is decremented, so
exactly one trailing `]` is stripped. -/
def atoid (src : List Nat) (oe_only : Bool) : AtoidId :=
  if ¬oe_only ∧ src = strBytes "%fromcert" then .fromcert
  else if ¬oe_only ∧ src = strBytes "%none" then .none_
  else if ¬oe_only ∧ src = strBytes "%null" then .null_
  else if ¬oe_only ∧ src.contains eqByte then
    .derDnText (match src with
                | b :: rest => if b = atByte then rest else src
                | [] => src)
  else if ¬ src.contains atByte then
    if src = strBytes "%any" ∨ src = strBytes "0.0.0.0" then .none_
    else .ipLit (src.contains colonByte) src
  else
    match src with
    | b :: rest =>
      if b = atByte then
        if oe_only then .fqdn rest
        else
          match rest with
          | b2 :: rest2 =>
            if b2 = hashByte then .keyIdHex rest2
            else if b2 = tildeByte then .derDnHex rest2
            else if b2 = lbrackByte then
              if rest2 ≠ [] ∧ rest2.getLastD 0 = rbrackByte then .keyId rest2.dropLast
              else .keyId rest2
            else .fqdn rest
          | [] => .fqdn rest
      else .userFqdn src
    | [] => .userFqdn src

/-! ## same_id (id.c:279-341) -/

/-- Modelled from the spec: `same_dn`, the ordered DN comparison, lives in
the x509 code which is not under src/; spec section 4.2 says two DNs are
ordered-equal when their RDN sequences coincide, which byte equality of the
DER encodings conservatively models.  No theorem below ever evaluates this
definition: in each proved statement the `ID_NONE` wildcard or a kind
mismatch short-circuits first. -/
def same_dn_ext (a b : List Nat) : Bool := a == b

/-- Strip trailing `.` bytes, as the `while (al > 0 && ... == '.') al--;`
loops do in id.c:318-321. -/
def stripTrailingDots (n : List Nat) : List Nat :=
  (n.reverse.dropWhile (fun b => b = dotByte)).reverse

/-- ASCII tolower on a byte, the semantics of `strncaseeq`. -/
def lowerByte (b : Nat) : Nat := if 65 ≤ b ∧ b ≤ 90 then b + 32 else b

/-- FQDN/USER_FQDN comparison (id.c:313-325): strip trailing dots from both,
require equal remaining lengths, compare those prefixes case-insensitively. -/
def fqdnEq (a b : List Nat) : Bool :=
  let a' := stripTrailingDots a
  let b' := stripTrailingDots b
  a'.length == b'.length && (a'.map lowerByte == b'.map lowerByte)

/-- Embedding of `same_id` (id.c:279). -/
def same_id (a b : SwanId) : Bool :=
  if b.kind = IdKind.none_ ∨ a.kind = IdKind.none_ then
    true  /- it is the wildcard -/
  else if a.kind ≠ b.kind then
    false
  else
    match a.kind with
    | .none_ => true  /- repeat of above for completeness -/
    | .null_ => decide (a.kind = b.kind)  /- dead-looking second check kept verbatim -/
    | .ipv4 => a.ipAddr == b.ipAddr  /- sameaddr: bitwise comparison -/
    | .ipv6 => a.ipAddr == b.ipAddr
    | .fqdn => fqdnEq a.name b.name
    | .userFqdn => fqdnEq a.name b.name
    | .fromcert => same_dn_ext a.name b.name  /- FALLTHROUGH to the DN case -/
    | .derDn => same_dn_ext a.name b.name
    | .keyId => a.name == b.name  /- chunk_eq -/

/-! ## match_id (id.c:345-370) -/

/-- Modelled from the spec: MAX_WILDCARDS is defined in constants.h, which is
not under src/.  Its exact value is immaterial to every theorem below. -/
def MAX_WILDCARDS : Nat := 15

/-- Modelled from the spec: `match_dn_any_order_wild`'s DN decoding runs
through NSS (`match_dn` plus `match_dn_unordered` on decoded names); the raw
chunk level comparison is stubbed by byte equality here.  No theorem below
ever evaluates this definition (`ID_NONE` or a kind mismatch short-circuits
first); the unordered matcher itself is embedded at the decoded-RDN level as
`matchDnUnordered` further down. -/
def match_dn_any_order_wild_ext (a b : List Nat) : Bool × Nat := (a == b, 0)

/-- Embedding of `match_id` (id.c:345).  The C communicates the wildcard
count through an out-parameter initialised to 0; the pair's second component
is that count on return. -/
def match_id (a b : SwanId) : Bool × Nat :=
  if b.kind = IdKind.none_ then (true, MAX_WILDCARDS)
  else if a.kind ≠ b.kind then (false, 0)
  else if a.kind = IdKind.derDn then match_dn_any_order_wild_ext a.name b.name
  else (same_id a b, 0)

/-! ## match_rdn / match_dn_unordered (id.c:407-516)

Embedded at the decoded level: an AVA is an OID tag plus its decoded value
bytes, an RDN is the AVA list NSS exposes, a DN is the RDN list.  The value
`[42]` is the single byte `*`.  `CERT_CompareAVA` equality is value equality
(the code only invokes it once the tags agree); `CERT_DecodeAVAValue` is
total here, matching the code's treatment of a NULL decode as simply skipping
the wildcard test. -/

structure AVA where
  tag : Nat
  value : List Nat
deriving DecidableEq, Repr

def starByte : Nat := Char.toNat '*'

/-- Inner loop of `match_rdn` (id.c:423-446): scan the left RDN's AVAs for
the first one whose tag equals `b.tag` and whose value matches — by the
wildcard rule (right value is exactly `*`, wildcards enabled) or by
`CERT_CompareAVA` equality.  `some w` means matched, with `w` true when the
wildcard rule fired. -/
def findAvaMatch (wild : Bool) (avasA : List AVA) (b : AVA) : Option Bool :=
  match avasA with
  | [] => none
  | a :: rest =>
    if a.tag = b.tag then
      if wild ∧ b.value = [starByte] then some true
      else if a.value = b.value then some false
      else findAvaMatch wild rest b
    else findAvaMatch wild rest b

/-- Outer loop of `match_rdn`: `matched` counts right AVAs that found a
partner; the second component is the RDN-level `has_wild` flag. -/
def matchRdnCount (wild : Bool) (rdnA : List AVA) (avasB : List AVA) : Nat × Bool :=
  match avasB with
  | [] => (0, false)
  | b :: rest =>
    let mw := matchRdnCount wild rdnA rest
    match findAvaMatch wild rdnA b with
    | some uw => (mw.1 + 1, mw.2 || uw)
    | none => mw

/-- Embedding of `match_rdn` (id.c:407): `matched > 0 && matched == ava_num`,
paired with the `has_wild` flag. -/
def matchRdn (wild : Bool) (rdnA rdnB : List AVA) : Bool × Bool :=
  let mc := matchRdnCount wild rdnA rdnB
  (decide (0 < mc.1) && decide (mc.1 = rdnB.length), mc.2)

/-- Inner loop of `match_dn_unordered` (id.c:496-507): find the first left
RDN matching `rdnB`; `some w` reports whether that match used a wildcard. -/
def findRdnMatch (wild : Bool) (rdnsA : List (List AVA)) (rdnB : List AVA) : Option Bool :=
  match rdnsA with
  | [] => none
  | rdnA :: rest =>
    let m := matchRdn wild rdnA rdnB
    if m.1 then some m.2 else findRdnMatch wild rest rdnB

/-- Outer loop of `match_dn_unordered`: `matched` counts right RDNs that
found a partner; the second component accumulates the wildcard count. -/
def matchDnCount (wild : Bool) (rdnsA rdnsB : List (List AVA)) : Nat × Nat :=
  match rdnsB with
  | [] => (0, 0)
  | rdnB :: rest =>
    let mc := matchDnCount wild rdnsA rest
    match findRdnMatch wild rdnsA rdnB with
    | some uw => (mc.1 + 1, mc.2 + (if uw then 1 else 0))
    | none => mc

/-- Embedding of `match_dn_unordered` (id.c:456): the result is
`matched > 0 && rdn_num > 0 && matched == rdn_num` where `rdn_num` counts the
RIGHT side's RDNs only, paired with the wildcard count. -/
def matchDnUnordered (wild : Bool) (rdnsA rdnsB : List (List AVA)) : Bool × Nat :=
  let mc := matchDnCount wild rdnsA rdnsB
  (decide (0 < mc.1) && decide (0 < rdnsB.length) && decide (mc.1 = rdnsB.length), mc.2)

/-! ## Lemmas about the unordered DN matcher -/

lemma matchDnCount_le (wild : Bool) (a b : List (List AVA)) :
    (matchDnCount wild a b).1 ≤ b.length := by
  induction b with
  | nil => simp [matchDnCount]
  | cons r rest ih =>
    cases h : findRdnMatch wild a r <;> simp [matchDnCount, h] <;> omega

lemma matchDnCount_full_iff (wild : Bool) (a b : List (List AVA)) :
    (matchDnCount wild a b).1 = b.length ↔
      ∀ r ∈ b, (findRdnMatch wild a r).isSome = true := by
  induction b with
  | nil => simp [matchDnCount]
  | cons r rest ih =>
    cases h : findRdnMatch wild a r with
    | none =>
      simp only [matchDnCount, h, List.length_cons]
      constructor
      · intro he
        have hle := matchDnCount_le wild a rest
        omega
      · intro hall
        have hr := hall r (by simp)
        simp [h] at hr
    | some uw =>
      simp only [matchDnCount, h, List.length_cons]
      constructor
      · intro he
        intro r' hr'
        rcases List.mem_cons.mp hr' with h1 | h2
        · subst h1; simp [h]
        · exact (ih.mp (by omega)) r' h2
      · intro hall
        have : (matchDnCount wild a rest).1 = rest.length :=
          ih.mpr (fun r' hr' => hall r' (List.mem_cons_of_mem _ hr'))
        omega

lemma findRdnMatch_isSome (wild : Bool) (a : List (List AVA)) (r : List AVA) :
    (findRdnMatch wild a r).isSome = true ↔
      ∃ l ∈ a, (matchRdn wild l r).1 = true := by
  induction a with
  | nil => simp [findRdnMatch]
  | cons x xs ih =>
    by_cases h : (matchRdn wild x r).1 = true
    · simp [findRdnMatch, h]
    · simp only [findRdnMatch]
      rw [Bool.not_eq_true] at h
      simp [h, ih]

/-- C3, amended: `match_dn_unordered` returns true iff the RIGHT side has a
nonzero number of RDNs and every right-side RDN matches some left-side RDN;
the left side's RDN count is not compared against the right side's. -/
theorem C3_unordered_match_amended (wild : Bool) (a b : List (List AVA)) :
    (matchDnUnordered wild a b).1 = true ↔
      (b ≠ [] ∧ ∀ r ∈ b, ∃ l ∈ a, (matchRdn wild l r).1 = true) := by
  have hfull := matchDnCount_full_iff wild a b
  simp only [matchDnUnordered, Bool.and_eq_true, decide_eq_true_eq]
  constructor
  · rintro ⟨⟨h1, h2⟩, h3⟩
    refine ⟨by intro hb; subst hb; simp at h2, ?_⟩
    intro r hr
    exact (findRdnMatch_isSome wild a r).mp ((hfull.mp h3) r hr)
  · rintro ⟨hb, hall⟩
    have h3 : (matchDnCount wild a b).1 = b.length :=
      hfull.mpr (fun r hr => (findRdnMatch_isSome wild a r).mpr (hall r hr))
    have h2 : 0 < b.length := List.length_pos.mpr hb
    exact ⟨⟨by omega, h2⟩, h3⟩

def dnCexA : List (List AVA) := [[⟨1, [88]⟩], [⟨2, [89]⟩]]
def dnCexB : List (List AVA) := [[⟨1, [88]⟩]]

/-- C3, counterexample to the claim as stated: with a left DN of two RDNs and
a right DN of one RDN (e.g. `CN=X,O=Y` against `CN=X`), the matcher returns
true although the two sides do not contain the same number of RDNs, so
"returns true iff both sides have the same nonzero count and every right RDN
matches" is false. -/
theorem C3_unordered_match_cex :
    ¬ ((matchDnUnordered false dnCexA dnCexB).1 = true ↔
       (dnCexA.length = dnCexB.length ∧ dnCexB.length ≠ 0 ∧
        ∀ r ∈ dnCexB, ∃ l ∈ dnCexA, (matchRdn false l r).1 = true)) := by
  decide

/-- C3, witness: the amended statement instantiated at a concrete DN pair. -/
theorem C3_unordered_match_amended_witness :
    (matchDnUnordered false dnCexA dnCexA).1 = true ↔
      (dnCexA ≠ [] ∧ ∀ r ∈ dnCexA, ∃ l ∈ dnCexA, (matchRdn false l r).1 = true) :=
  C3_unordered_match_amended false dnCexA dnCexA

/-! ## Claims about atoid -/

def rawKey1 : List Nat := strBytes "@[raw key]"
def rawKey2 : List Nat := strBytes "@[raw key]]"

/-- C7, counterexample: parsing `@[raw key]]` does NOT yield the same
identity as parsing `@[raw key]`; the code strips exactly one trailing `]`,
leaving the 8 bytes `raw key]`, not the claimed 7 bytes `raw key`. -/
theorem C7_trailing_bracket_cex :
    atoid rawKey2 false ≠ atoid rawKey1 false ∧
    atoid rawKey2 false ≠ AtoidId.keyId (strBytes "raw key") := by
  decide

/-- C7, amended: `@[raw key]` parses to a KeyID of the 7 bytes `raw key`
(the closing `]` stripped), while `@[raw key]]` parses to a KeyID of the 8
bytes `raw key]` — exactly one trailing `]` is stripped. -/
theorem C7_trailing_bracket_amended :
    atoid rawKey1 false = AtoidId.keyId (strBytes "raw key") ∧
    atoid rawKey2 false = AtoidId.keyId (strBytes "raw key]") := by
  decide

/-! ## Claims about same_id / match_id -/

/-- C8: `same_id` treats `ID_NONE` as a wildcard on either side. -/
theorem C8_same_id_none_wildcard (a x : SwanId) (ha : a.kind = IdKind.none_) :
    same_id a x = true ∧ same_id x a = true := by
  refine ⟨?_, ?_⟩ <;> simp [same_id, ha]

def idNone : SwanId := ⟨IdKind.none_, [], 0⟩
def idKey : SwanId := ⟨IdKind.keyId, [1, 2], 0⟩

/-- C8, witness at a concrete pair. -/
theorem C8_same_id_none_wildcard_witness :
    same_id idNone idKey = true ∧ same_id idKey idNone = true :=
  C8_same_id_none_wildcard idNone idKey rfl

/-- C10: `match_id` treats `ID_NONE` as a wildcard only on the pattern
(second) side: `match_id(None, b)` with `b` not None fails with count 0,
while `match_id(x, None)` succeeds with count `MAX_WILDCARDS` for every `x`;
`same_id` by contrast matches in both orders. -/
theorem C10_match_id_pattern_side_only (a b x : SwanId)
    (ha : a.kind = IdKind.none_) (hb : b.kind ≠ IdKind.none_) :
    match_id a b = (false, 0) ∧ match_id x a = (true, MAX_WILDCARDS) ∧
    same_id a b = true ∧ same_id b a = true := by
  have hne : a.kind ≠ b.kind := by
    rw [ha]
    exact fun h => hb h.symm
  refine ⟨?_, ?_, ?_, ?_⟩
  · simp [match_id, hb, hne]
  · simp [match_id, ha]
  · simp [same_id, ha]
  · simp [same_id, ha]

/-- C10, witness at a concrete triple. -/
theorem C10_match_id_pattern_side_only_witness :
    match_id idNone idKey = (false, 0) ∧
    match_id idKey idNone = (true, MAX_WILDCARDS) ∧
    same_id idNone idKey = true ∧ same_id idKey idNone = true :=
  C10_match_id_pattern_side_only idNone idKey idKey rfl (by decide)

/-! ## Address pool (src/programs/pluto/addresspool.c)

The arena is embedded as a `List Lease` together with the pool's counters.
The sentinel `(unsigned)-1` is `Option.none`; the 32-bit `unsigned` counters
wrap explicitly through `u32inc`/`u32dec`.  Every `passert` becomes the
observable error `PoolErr.assertFailed`; the C expression `hash %
pool->nr_leases`, which divides by zero when `nr_leases == 0`, is guarded by
the distinguished error `PoolErr.divZero` so that claim C9 can be stated;
`PoolErr.nullName` marks the dereference `hasher(NULL)`; `PoolErr.fuelOut`
marks a bucket chain longer than `nr_leases` (only possible for a cyclic,
i.e. corrupted, chain on which the C loop would not terminate). -/

def U32 : Nat := 4294967296

def u32inc (n : Nat) : Nat := (n + 1) % U32

/-- 32-bit unsigned decrement.  For `n < 2^32` — every value a `uint32` can
hold — this equals `(n + 2^32 - 1) % 2^32`; the conditional form keeps
symbolic reduction tractable. -/
def u32dec (n : Nat) : Nat := if n = 0 then U32 - 1 else n - 1

inductive PoolErr where
  | assertFailed
  | divZero
  | nullName
  | fuelOut
deriving DecidableEq, Repr

/-- Embedding of `struct entry` (addresspool.c:42): prev/next indices with
`none` for SENTINEL. -/
structure Entry where
  prev : Option Nat
  next : Option Nat
deriving DecidableEq, Repr

/-- Embedding of `struct list` (addresspool.c:53); named LHead because Lean
owns `List`. -/
structure LHead where
  first : Option Nat
  last : Option Nat
  nr : Nat
deriving DecidableEq, Repr

/-- Embedding of `struct lease` (addresspool.c:175). -/
structure Lease where
  lease_refcount : Nat
  free_entry : Entry
  reusable_entry : Entry
  reusable_name : Option (List Nat)
  reusable_bucket : LHead
deriving DecidableEq, Repr

def emptyEntry : Entry := ⟨none, none⟩

def emptyLHead : LHead := ⟨none, none, 0⟩

/-- A freshly allocated (zeroed) lease; the code re-runs INIT_ENTRY/INIT_LIST
on every such slot before any field is read, so the entry/bucket defaults
here are never observable. -/
def freshLease : Lease := ⟨0, emptyEntry, emptyEntry, none, emptyLHead⟩

instance : Inhabited Lease := ⟨freshLease⟩

/-- Embedding of `struct ip_pool` (addresspool.c:185).  The range is not
carried: slot `i` stands for address `r.start + i`, and the callers of
`lease_an_address`/`rel_lease_addr` translate between addresses and indices
outside the embedded core.  `nr_reusable` is declared in the C but never
updated, and `pool_refcount`/`next` belong to the registry model below. -/
structure IpPool where
  size : Nat
  free_list : LHead
  nr_in_use : Nat
  nr_leases : Nat
  leases : List Lease
deriving DecidableEq, Repr

/-- Lease at index `i`; out-of-range reads, which the C guards with passerts
before every access, default to `freshLease`. -/
def IpPool.leaseD (p : IpPool) (i : Nat) : Lease := p.leases.getD i freshLease

def IpPool.modLease (p : IpPool) (i : Nat) (f : Lease → Lease) : IpPool :=
  { p with leases := p.leases.set i (f (p.leaseD i)) }

/-- Which list head a macro's WHAT/LIST pair denotes: the pool's free list,
or the `reusable_bucket` head stored in lease `b`. -/
inductive ListLoc where
  | freeList
  | bucket (b : Nat)
deriving DecidableEq, Repr

/-- Which `struct entry` field the macro's ENTRY argument denotes. -/
inductive EKind where
  | freeE
  | reusableE
deriving DecidableEq, Repr

def Lease.getE : Lease → EKind → Entry
  | l, .freeE => l.free_entry
  | l, .reusableE => l.reusable_entry

def Lease.setE : Lease → EKind → Entry → Lease
  | l, .freeE, e => { l with free_entry := e }
  | l, .reusableE, e => { l with reusable_entry := e }

def IpPool.getL : IpPool → ListLoc → LHead
  | p, .freeList => p.free_list
  | p, .bucket b => (p.leaseD b).reusable_bucket

def IpPool.setL : IpPool → ListLoc → LHead → IpPool
  | p, .freeList, L => { p with free_list := L }
  | p, .bucket b, L => p.modLease b (fun ls => { ls with reusable_bucket := L })

def IpPool.entryAt (p : IpPool) (i : Nat) (k : EKind) : Entry := (p.leaseD i).getE k

def IpPool.modEntry (p : IpPool) (i : Nat) (k : EKind) (f : Entry → Entry) : IpPool :=
  p.modLease i (fun l => l.setE k (f (l.getE k)))

/-- Embedding of IS_EMPTY (addresspool.c:66): the emptiness test together
with its passerts (first/last are SENTINEL exactly when nr == 0, and
otherwise are valid indices below `pool->nr_leases`). -/
def isEmptyCk (p : IpPool) (loc : ListLoc) : Except PoolErr Bool :=
  let L := p.getL loc
  if L.nr = 0 then
    if L.first = none ∧ L.last = none then .ok true else .error .assertFailed
  else
    match L.first, L.last with
    | some f, some l =>
      if f < p.nr_leases ∧ l < p.nr_leases then .ok false else .error .assertFailed
    | _, _ => .error .assertFailed

/-- Embedding of HEAD (addresspool.c:81): `none` for the NULL pointer. -/
def headIdx (p : IpPool) (loc : ListLoc) : Except PoolErr (Option Nat) :=
  match isEmptyCk p loc with
  | .error e => .error e
  | .ok true => .ok none
  | .ok false => .ok (p.getL loc).first

/-- First half of REMOVE (addresspool.c:97-105): fix up `LIST.first` or the
predecessor's `next`, with the passerts on `prev`. -/
def removeFirstStep (p0 : IpPool) (loc : ListLoc) (ek : EKind) (i : Nat) :
    Except PoolErr IpPool :=
  if (p0.getL loc).first = some i then
    .ok (p0.setL loc { p0.getL loc with first := (p0.entryAt i ek).next })
  else
    match (p0.entryAt i ek).prev with
    | none => .error .assertFailed
    | some pv =>
      if pv < p0.nr_leases then
        .ok (p0.modEntry pv ek (fun e => { e with next := (p0.entryAt i ek).next }))
      else .error .assertFailed

/-- Second half of REMOVE (addresspool.c:106-114): fix up `LIST.last` or the
successor's `prev`, with the passerts on `next`. -/
def removeLastStep (p1 : IpPool) (loc : ListLoc) (ek : EKind) (i : Nat) :
    Except PoolErr IpPool :=
  if (p1.getL loc).last = some i then
    .ok (p1.setL loc { p1.getL loc with last := (p1.entryAt i ek).prev })
  else
    match (p1.entryAt i ek).next with
    | none => .error .assertFailed
    | some nx =>
      if nx < p1.nr_leases then
        .ok (p1.modEntry nx ek (fun e => { e with prev := (p1.entryAt i ek).prev }))
      else .error .assertFailed

/-- Embedding of REMOVE (addresspool.c:94), statement by statement and in C
order so that aliasing between the list head, the removed lease and its
neighbours behaves exactly as the memory writes do: the two fix-up steps,
then `ENTRY.next = ENTRY.prev = SENTINEL` and `LIST.nr--`. -/
def removeL (p0 : IpPool) (loc : ListLoc) (ek : EKind) (i : Nat) : Except PoolErr IpPool :=
  match removeFirstStep p0 loc ek i with
  | .error e => .error e
  | .ok p1 =>
    match removeLastStep p1 loc ek i with
    | .error e => .error e
    | .ok p2 =>
      let p3 := p2.modEntry i ek (fun _ => emptyEntry)
      .ok (p3.setL loc { p3.getL loc with nr := u32dec (p3.getL loc).nr })

/-- Embedding of APPEND (addresspool.c:127), including the FILL case. -/
def appendL (p0 : IpPool) (loc : ListLoc) (ek : EKind) (i : Nat) : Except PoolErr IpPool :=
  match isEmptyCk p0 loc with
  | .error e => .error e
  | .ok true =>
    let p1 := p0.setL loc { p0.getL loc with first := some i, last := some i }
    let p2 := p1.modEntry i ek (fun _ => emptyEntry)
    .ok (p2.setL loc { p2.getL loc with nr := u32inc (p2.getL loc).nr })
  | .ok false =>
    match (p0.getL loc).last with
    | none => .error .assertFailed  /- unreachable: IS_EMPTY established last ≠ SENTINEL -/
    | some oldLast =>
      let p1 := p0.modEntry i ek (fun e => { e with next := none, prev := some oldLast })
      let p2 := p1.modEntry oldLast ek (fun e => { e with next := some i })
      let p3 := p2.setL loc { p2.getL loc with last := some i }
      .ok (p3.setL loc { p3.getL loc with nr := u32inc (p3.getL loc).nr })

/-- Embedding of PREPEND (addresspool.c:142), including the FILL case. -/
def prependL (p0 : IpPool) (loc : ListLoc) (ek : EKind) (i : Nat) : Except PoolErr IpPool :=
  match isEmptyCk p0 loc with
  | .error e => .error e
  | .ok true =>
    let p1 := p0.setL loc { p0.getL loc with first := some i, last := some i }
    let p2 := p1.modEntry i ek (fun _ => emptyEntry)
    .ok (p2.setL loc { p2.getL loc with nr := u32inc (p2.getL loc).nr })
  | .ok false =>
    match (p0.getL loc).first with
    | none => .error .assertFailed  /- unreachable: IS_EMPTY established first ≠ SENTINEL -/
    | some oldFirst =>
      let p1 := p0.modEntry i ek (fun e => { e with next := some oldFirst, prev := none })
      let p2 := p1.modEntry oldFirst ek (fun e => { e with prev := some i })
      let p3 := p2.setL loc { p2.getL loc with first := some i }
      .ok (p3.setL loc { p3.getL loc with nr := u32inc (p3.getL loc).nr })

/-- Embedding of `hasher` (addresspool.c:212): `hash * 251 + byte` in 32-bit
unsigned arithmetic over the name's bytes. -/
def hasher (name : List Nat) : Nat :=
  name.foldl (fun h b => (h * 251 + b) % U32) 0

/-- Bucket index `hasher(name) % pool->nr_leases`; the C division by zero
when `nr_leases == 0` is made observable as `divZero`. -/
def bucketOf (nrLeases : Nat) (name : List Nat) : Except PoolErr Nat :=
  if nrLeases = 0 then .error .divZero else .ok (hasher name % nrLeases)

/-- Embedding of HASH (addresspool.c:158): assert the lease is on no chain,
hash its own `reusable_name`, and append it to that bucket's chain. -/
def hashLease (p : IpPool) (i : Nat) : Except PoolErr IpPool :=
  if (p.entryAt i .reusableE).next = none ∧ (p.entryAt i .reusableE).prev = none then
    match (p.leaseD i).reusable_name with
    | none => .error .nullName  /- hasher(NULL) would dereference NULL -/
    | some nm =>
      match bucketOf p.nr_leases nm with
      | .error e => .error e
      | .ok b => appendL p (.bucket b) .reusableE i
  else .error .assertFailed

/-! ## recover_lease (addresspool.c:413-447) -/

/-- Bucket-chain walk of `recover_lease` (addresspool.c:427-445).  `fuel`
bounds the walk: any acyclic chain has at most `nr_leases` nodes, so running
out of fuel can only happen on a cyclic (corrupted) chain, where the C loop
would not terminate. -/
def recoverLoop (thatName : List Nat) :
    IpPool → Option Nat → Nat → Except PoolErr (IpPool × Option Nat)
  | p, none, _ => .ok (p, none)
  | _, some _, 0 => .error .fuelOut
  | p, some cur, fuel + 1 =>
    if cur < p.nr_leases then
      match (p.leaseD cur).reusable_name with
      | none => .error .assertFailed  /- passert(lease->reusable_name != NULL) -/
      | some nm =>
        if nm = thatName then
          match ((if (p.leaseD cur).lease_refcount = 0 then
                    match removeL p .freeList .freeE cur with
                    | .error e => .error e
                    | .ok p1 => .ok { p1 with nr_in_use := u32inc p1.nr_in_use }
                  else .ok p) : Except PoolErr IpPool) with
          | .error e => .error e
          | .ok p2 =>
            .ok (p2.modLease cur (fun l => { l with lease_refcount := u32inc l.lease_refcount }),
                 some cur)
        else recoverLoop thatName p ((p.leaseD cur).reusable_entry.next) fuel
    else .error .assertFailed  /- passert(current < pool->nr_leases) -/

/-- Embedding of `recover_lease` (addresspool.c:413): return immediately when
the pool has no leases, otherwise walk the bucket the name hashes to. -/
def recoverLease (p : IpPool) (thatName : List Nat) : Except PoolErr (IpPool × Option Nat) :=
  if p.nr_leases = 0 then .ok (p, none)
  else
    match bucketOf p.nr_leases thatName with
    | .error e => .error e
    | .ok b =>
      match isEmptyCk p (.bucket b) with
      | .error e => .error e
      | .ok true => .ok (p, none)
      | .ok false => recoverLoop thatName p (p.getL (.bucket b)).first (p.nr_leases + 1)

/-! ## lease_an_address (addresspool.c:449-575) -/

/-- Growth step, "destroy existing hash table" loop (addresspool.c:514-518):
re-initialise every old slot's `reusable_entry` and `reusable_bucket`. -/
def initOldSlots (p : IpPool) (old : Nat) : IpPool :=
  (List.range old).foldl
    (fun q l => q.modLease l (fun ls =>
      { ls with reusable_entry := emptyEntry, reusable_bucket := emptyLHead }))
    p

/-- Growth step, "initialize new leases" loop (addresspool.c:520-526):
re-initialise each new slot's entries and prepend it to the free list. -/
def prependNewSlots (p : IpPool) (idxs : List Nat) : Except PoolErr IpPool :=
  match idxs with
  | [] => .ok p
  | l :: rest =>
    let q := p.modLease l (fun ls =>
      { ls with free_entry := emptyEntry, reusable_entry := emptyEntry,
                reusable_bucket := emptyLHead })
    match prependL q .freeList .freeE l with
    | .error e => .error e
    | .ok q2 => prependNewSlots q2 rest

/-- Growth step, "build a new hash table" loop (addresspool.c:528-533):
re-hash every old slot that carries a `reusable_name`. -/
def rehashOld (p : IpPool) (idxs : List Nat) : Except PoolErr IpPool :=
  match idxs with
  | [] => .ok p
  | l :: rest =>
    if (p.leaseD l).reusable_name ≠ none then
      match hashLease p l with
      | .error e => .error e
      | .ok q => rehashOld q rest
    else rehashOld p rest

/-- The new lease-array size chosen by the grow block (addresspool.c:505,
508): `min(1U, size)` from nothing, else `min(nr_leases * 2, size)` — where
`nr_leases * 2` is a 32-bit unsigned product and therefore wraps modulo
2^32: at `nr_leases = 2^31` it is 0, so the chosen size is `min(0, size)
= 0` (see the C9 counterexample below). -/
def growTarget (p : IpPool) : Nat :=
  if p.nr_leases = 0 then min 1 p.size else min (p.nr_leases * 2 % U32) p.size

/-- The reallocation itself (`alloc_things` / `resize_things`): old slots
preserved, extension zeroed — the two INIT loops overwrite the new slots
before any read. -/
def growArray (p : IpPool) : IpPool :=
  { p with nr_leases := growTarget p,
           leases := p.leases.take p.nr_leases
             ++ List.replicate (growTarget p - p.nr_leases) freshLease }

/-- The grow block of `lease_an_address` (addresspool.c:503-533), entered
with an empty free list and `nr_leases < size`: reallocate, destroy the old
hash table, init-and-prepend the new slots, re-hash the old slots. -/
def growPool (p : IpPool) : Except PoolErr IpPool :=
  match prependNewSlots (initOldSlots (growArray p) p.nr_leases)
      (List.range' p.nr_leases (growTarget p - p.nr_leases)) with
  | .error e => .error e
  | .ok pN => rehashOld pN (List.range p.nr_leases)

/-- Outcome of `lease_an_address`: the assigned slot index (the caller turns
index `i` into address `range.start + i`), or the returned error string. -/
inductive LeaseResult where
  | assigned (idx : Nat)
  | err (msg : String)
deriving DecidableEq, Repr

/-- The steal check of `lease_an_address` (addresspool.c:538-548): when the
free-list head still carries a `reusable_name` the lingering lease is
unlinked from a bucket chain and the name freed.  NOTE addresspool.c:544
computes that bucket from THAT_NAME, the new peer's name, not from the
stolen lease's old `reusable_name`; the embedding reproduces that
faithfully. -/
def leaseStealCheck (p3 : IpPool) (i : Nat) (thatName : List Nat) :
    Except PoolErr IpPool :=
  match (p3.leaseD i).reusable_name with
  | some _ =>
    match bucketOf p3.nr_leases thatName with
    | .error e => .error e
    | .ok b =>
      match removeL p3 (.bucket b) .reusableE i with
      | .error e => .error e
      | .ok p4 => .ok (p4.modLease i (fun l => { l with reusable_name := none }))
  | none => .ok p3

/-- The re-bind of `lease_an_address` (addresspool.c:549-552): a reusable
request clones the peer name into the slot and hashes it into its bucket. -/
def leaseBind (p4 : IpPool) (i : Nat) (reusable : Bool) (thatName : List Nat) :
    Except PoolErr IpPool :=
  if reusable then
    hashLease (p4.modLease i (fun l => { l with reusable_name := some thatName })) i
  else .ok p4

/-- Steps 4-5 of `lease_an_address` (addresspool.c:535-554): take the free
list head, unlink it, run the steal check and the re-bind, then bump
`nr_in_use` and the lease's refcount. -/
def leaseTakeHead (p2 : IpPool) (reusable : Bool) (thatName : List Nat) :
    Except PoolErr (IpPool × LeaseResult) :=
  match headIdx p2 .freeList with
  | .error e => .error e
  | .ok none => .error .assertFailed  /- passert(new_lease != NULL) -/
  | .ok (some i) =>
    match removeL p2 .freeList .freeE i with
    | .error e => .error e
    | .ok p3 =>
      match leaseStealCheck p3 i thatName with
      | .error e => .error e
      | .ok p4 =>
        match leaseBind p4 i reusable thatName with
        | .error e => .error e
        | .ok p5 =>
          .ok (({ p5 with nr_in_use := u32inc p5.nr_in_use } : IpPool).modLease i
                 (fun l => { l with lease_refcount := u32inc l.lease_refcount }),
               .assigned i)

/-- Embedding of `lease_an_address` (addresspool.c:449).  `reusable` is
`can_reuse_lease(c)` — a pure predicate of the connection's policy,
authentication and identity kind — and `thatName` is `str_id(that_id)`, the
peer identity's textual form.  Step 2 attempts recovery; step 3 grows the
arena when the free list is empty, failing with the exhaustion string when
`nr_leases >= size`; steps 4-5 are `leaseTakeHead`. -/
def leaseAnAddress (p0 : IpPool) (reusable : Bool) (thatName : List Nat) :
    Except PoolErr (IpPool × LeaseResult) :=
  match (if reusable then recoverLease p0 thatName else .ok (p0, none)) with
  | .error e => .error e
  | .ok (p1, some i) => .ok (p1, .assigned i)
  | .ok (p1, none) =>
    match isEmptyCk p1 .freeList with
    | .error e => .error e
    | .ok empty =>
      if empty then
        if p1.size ≤ p1.nr_leases then
          .ok (p1, .err "no free address in addresspool")  /- pool exhausted -/
        else
          match growPool p1 with
          | .error e => .error e
          | .ok p2 => leaseTakeHead p2 reusable thatName
      else leaseTakeHead p1 reusable thatName

/-! ## rel_lease_addr (addresspool.c:357-407) -/

/-- The decrement `lease->lease_refcount--` of rel_lease_addr. -/
def decRef : Lease → Lease := fun l => { l with lease_refcount := u32dec l.lease_refcount }

/-- Embedding of `rel_lease_addr` (addresspool.c:357).  The caller-side
`has_lease` early return and the index computation
`ntohl(client.addr) - ntohl(range.start)` happen outside the pool core; `i`
is that computed index, and the two passerts on it are kept.  Note that
neither branch decrements `nr_in_use`. -/
def relLeaseAddr (p : IpPool) (i : Nat) : Except PoolErr IpPool :=
  if ¬ (p.nr_leases ≤ p.size) then .error .assertFailed
  else if ¬ (i < p.nr_leases) then .error .assertFailed
  else if (p.leaseD i).lease_refcount = 0 then .error .assertFailed
  else
    if ((p.modLease i decRef).leaseD i).reusable_name ≠ none then
      if ((p.modLease i decRef).leaseD i).lease_refcount = 0 then
        appendL (p.modLease i decRef) .freeList .freeE i  /- lingering: taken last -/
      else .ok (p.modLease i decRef)
    else
      if ((p.modLease i decRef).leaseD i).lease_refcount ≠ 0 then .error .assertFailed
      else prependL (p.modLease i decRef) .freeList .freeE i  /- one-time: taken first -/

/-- A freshly installed pool (install_addresspool, addresspool.c:695-716):
`size` addresses, no leases materialised, empty free list. -/
def installPool (size : Nat) : IpPool :=
  { size := size, free_list := emptyLHead, nr_in_use := 0, nr_leases := 0, leases := [] }

/-! ## Concrete executions exhibiting the two pool code bugs -/

/-- C1 failing input: freshly installed pool of size 1; one
`lease_an_address` (one-time) followed by the matching `rel_lease_addr`. -/
def c1Run : Except PoolErr IpPool :=
  match leaseAnAddress (installPool 1) false [] with
  | .error e => .error e
  | .ok pr => relLeaseAddr pr.1 0

/-- The pool state c1Run ends in (computed by the embedding). -/
def c1Final : IpPool :=
  { size := 1, free_list := { first := some 0, last := some 0, nr := 1 },
    nr_in_use := 1, nr_leases := 1,
    leases := [{ lease_refcount := 0, free_entry := emptyEntry,
                 reusable_entry := emptyEntry, reusable_name := none,
                 reusable_bucket := emptyLHead }] }

/-- C1: the conservation invariant `free_list.nr + nr_in_use = nr_leases` is
violated by the code: `rel_lease_addr` appends/prepends the slot back onto
the free list but never decrements `nr_in_use` (the field the struct comment
`--- .free.nr + .nr_in_use ---` above `nr_leases` documents as one summand),
so after allocate-then-release on a size-1 pool the sum is 2 while
`nr_leases` is 1.  The `nr_leases ≤ size` half of the claim does hold here. -/
theorem C1_lease_conservation_violated :
    c1Run = Except.ok c1Final ∧
    c1Final.free_list.nr + c1Final.nr_in_use ≠ c1Final.nr_leases ∧
    c1Final.nr_leases ≤ c1Final.size :=
  ⟨rfl, by decide, by decide⟩

/-- C2 failing input: size-2 pool; reusable leases for names `a` (slot 0)
and `b` (slot 1); both released (both linger); then an allocation for the
new name `x` must steal slot 0 from lingering `a`. -/
def c2Run : Except PoolErr (IpPool × LeaseResult) :=
  match leaseAnAddress (installPool 2) true (strBytes "a") with
  | .error e => .error e
  | .ok pr =>
    match leaseAnAddress pr.1 true (strBytes "b") with
    | .error e => .error e
    | .ok pr =>
      match relLeaseAddr pr.1 0 with
      | .error e => .error e
      | .ok p =>
        match relLeaseAddr p 1 with
        | .error e => .error e
        | .ok p => leaseAnAddress p true (strBytes "x")

/-- C2: the steal path does NOT unlink the stolen slot from the chain its
old `reusable_name` hashes to: addresspool.c:544 computes the bucket from
`that_name` (the new peer `x`), whose bucket `hasher("x") % 2 = 0` differs
from the old name's bucket `hasher("a") % 2 = 1`, so REMOVE runs against the
wrong chain head and trips `passert(LEASE->ENTRY.prev != SENTINEL)` —
aborting instead of unlinking-and-freeing as the claim (and the upstream
code, which hashes `new_lease->reusable_name`) describes. -/
theorem C2_steal_wrong_bucket :
    c2Run = Except.error PoolErr.assertFailed ∧
    hasher (strBytes "a") % 2 = 1 ∧ hasher (strBytes "x") % 2 = 0 :=
  ⟨rfl, rfl, rfl⟩

/-- C4 exhaustion input: size-1 pool, one one-time lease taken, second
request with the free list empty and `nr_leases == size`. -/
def c4ExhaustRun : Except PoolErr (IpPool × LeaseResult) :=
  match leaseAnAddress (installPool 1) false [] with
  | .error e => .error e
  | .ok pr => leaseAnAddress pr.1 false []

/-- C4 non-exhaustion failing input: like c2Run but releasing slot 1 before
slot 0 and then requesting for the new name `y`, so the free-list head is
slot 1 (lingering `b`, bucket `hasher("b") % 2 = 0`) while the code removes
via bucket `hasher("y") % 2 = 1`. -/
def c4StealRun : Except PoolErr (IpPool × LeaseResult) :=
  match leaseAnAddress (installPool 2) true (strBytes "a") with
  | .error e => .error e
  | .ok pr =>
    match leaseAnAddress pr.1 true (strBytes "b") with
    | .error e => .error e
    | .ok pr =>
      match relLeaseAddr pr.1 1 with
      | .error e => .error e
      | .ok p =>
        match relLeaseAddr p 0 with
        | .error e => .error e
        | .ok p => leaseAnAddress p true (strBytes "y")

/-- C4: in the exhaustion case (no recovery, empty free list,
`nr_leases == size`) the code does return exactly
`"no free address in addresspool"`; but the "in every other case it assigns
an address and returns success" half fails: on `c4StealRun` the free list is
non-empty, yet the call aborts on a passert in the steal path (the C2 bug)
instead of assigning an address. -/
theorem C4_exhaustion_message_and_steal_abort :
    c4ExhaustRun.map (fun pr => pr.2)
        = Except.ok (LeaseResult.err "no free address in addresspool") ∧
    c4StealRun = Except.error PoolErr.assertFailed ∧
    hasher (strBytes "b") % 2 = 0 ∧ hasher (strBytes "y") % 2 = 1 :=
  ⟨rfl, rfl, rfl, rfl⟩

/-! ## Lemmas about the free-list primitives, and claim C5 -/

@[simp] lemma setL_freeList_eval (p : IpPool) (L : LHead) :
    (p.setL .freeList L).free_list = L := rfl

@[simp] lemma modLease_free_list (p : IpPool) (i : Nat) (f : Lease → Lease) :
    (p.modLease i f).free_list = p.free_list := rfl

@[simp] lemma modLease_nr_leases (p : IpPool) (i : Nat) (f : Lease → Lease) :
    (p.modLease i f).nr_leases = p.nr_leases := rfl

@[simp] lemma getL_freeList_eval (p : IpPool) : p.getL .freeList = p.free_list := rfl

@[simp] lemma modEntry_free_list (p : IpPool) (i : Nat) (k : EKind) (f : Entry → Entry) :
    (p.modEntry i k f).free_list = p.free_list := rfl

lemma isEmptyCk_modLease (p : IpPool) (i : Nat) (f : Lease → Lease) :
    isEmptyCk (p.modLease i f) .freeList = isEmptyCk p .freeList := rfl

lemma leaseD_modLease_self (p : IpPool) (i : Nat) (f : Lease → Lease)
    (h : i < p.leases.length) : (p.modLease i f).leaseD i = f (p.leaseD i) := by
  simp [IpPool.modLease, IpPool.leaseD, List.getD, List.getElem?_set_eq_of_lt _ h]

lemma u32dec_of_pos (n : Nat) (h1 : 1 ≤ n) : u32dec n = n - 1 := by
  unfold u32dec
  rw [if_neg (by omega)]

lemma isEmptyCk_false_shape (p : IpPool) (loc : ListLoc)
    (h : isEmptyCk p loc = .ok false) :
    ∃ f l, (p.getL loc).first = some f ∧ (p.getL loc).last = some l := by
  unfold isEmptyCk at h
  rcases hf : (p.getL loc).first with _ | f <;>
    rcases hl : (p.getL loc).last with _ | l <;>
      simp only [hf, hl] at h <;> split at h <;> simp_all

/-- APPEND on the free list, summarised: when IS_EMPTY's assertions pass,
the slot becomes the list's LAST element and `nr` is incremented. -/
lemma appendL_free_tail (p : IpPool) (i : Nat) (b : Bool)
    (h : isEmptyCk p .freeList = .ok b) :
    ∃ q, appendL p .freeList .freeE i = .ok q ∧
      q.free_list.last = some i ∧ q.free_list.nr = u32inc p.free_list.nr := by
  cases b with
  | true => exact ⟨_, by rw [appendL, h], rfl, rfl⟩
  | false =>
    obtain ⟨f, l, hf, hl⟩ := isEmptyCk_false_shape p .freeList h
    simp only [getL_freeList_eval] at hl
    rw [appendL, h, getL_freeList_eval, hl]
    exact ⟨_, rfl, by simp, by simp⟩

/-- PREPEND on the free list, summarised: when IS_EMPTY's assertions pass,
the slot becomes the list's FIRST element and `nr` is incremented. -/
lemma prependL_free_head (p : IpPool) (i : Nat) (b : Bool)
    (h : isEmptyCk p .freeList = .ok b) :
    ∃ q, prependL p .freeList .freeE i = .ok q ∧
      q.free_list.first = some i ∧ q.free_list.nr = u32inc p.free_list.nr := by
  cases b with
  | true => exact ⟨_, by rw [prependL, h], rfl, rfl⟩
  | false =>
    obtain ⟨f, l, hf, hl⟩ := isEmptyCk_false_shape p .freeList h
    simp only [getL_freeList_eval] at hf
    rw [prependL, h, getL_freeList_eval, hf]
    exact ⟨_, rfl, by simp, by simp⟩


/-- C5: releasing a held lease via `rel_lease_addr` — when `reusable_name`
is non-null and the refcount reaches 0 the slot is APPENDed (tail of the
free list); when `reusable_name` is null the decremented refcount must be 0
(else the passert aborts) and the slot is PREPENDed (head of the free
list). -/
theorem C5_release_ordering (p : IpPool) (i : Nat) (b : Bool)
    (hsz : p.nr_leases ≤ p.size) (hi : i < p.nr_leases)
    (hlen : p.leases.length = p.nr_leases)
    (hrc1 : 1 ≤ (p.leaseD i).lease_refcount)
    (hfree : isEmptyCk p .freeList = .ok b) :
    ((p.leaseD i).reusable_name ≠ none → (p.leaseD i).lease_refcount = 1 →
       ∃ q, relLeaseAddr p i = .ok q ∧ q.free_list.last = some i ∧
         q.free_list.nr = u32inc p.free_list.nr) ∧
    ((p.leaseD i).reusable_name = none → (p.leaseD i).lease_refcount = 1 →
       ∃ q, relLeaseAddr p i = .ok q ∧ q.free_list.first = some i ∧
         q.free_list.nr = u32inc p.free_list.nr) ∧
    ((p.leaseD i).reusable_name = none → (p.leaseD i).lease_refcount ≠ 1 →
       relLeaseAddr p i = .error .assertFailed) := by
  have hilen : i < p.leases.length := hlen ▸ hi
  have hD : (p.modLease i decRef).leaseD i = decRef (p.leaseD i) :=
    leaseD_modLease_self p i decRef hilen
  have hname' : ((p.modLease i decRef).leaseD i).reusable_name
      = (p.leaseD i).reusable_name := by rw [hD]; simp [decRef]
  have hrc' : ((p.modLease i decRef).leaseD i).lease_refcount
      = (p.leaseD i).lease_refcount - 1 := by
    rw [hD]
    show u32dec (p.leaseD i).lease_refcount = (p.leaseD i).lease_refcount - 1
    exact u32dec_of_pos _ hrc1
  have hc1 : ¬¬(p.nr_leases ≤ p.size) := by omega
  have hc2 : ¬¬(i < p.nr_leases) := by omega
  have hc3 : ¬((p.leaseD i).lease_refcount = 0) := by omega
  refine ⟨?_, ?_, ?_⟩
  · intro hname hone
    rw [relLeaseAddr, if_neg hc1, if_neg hc2, if_neg hc3]
    rw [if_pos (show ((p.modLease i decRef).leaseD i).reusable_name ≠ none by
          rw [hname']; exact hname)]
    rw [if_pos (show ((p.modLease i decRef).leaseD i).lease_refcount = 0 by
          rw [hrc', hone])]
    obtain ⟨q, hq, h1, h2⟩ := appendL_free_tail (p.modLease i decRef) i b
      (by rw [isEmptyCk_modLease]; exact hfree)
    exact ⟨q, hq, h1, by simpa using h2⟩
  · intro hname hone
    rw [relLeaseAddr, if_neg hc1, if_neg hc2, if_neg hc3]
    rw [if_neg (show ¬ ((p.modLease i decRef).leaseD i).reusable_name ≠ none by
          rw [hname']; simp [hname])]
    rw [if_neg (show ¬ ((p.modLease i decRef).leaseD i).lease_refcount ≠ 0 by
          rw [hrc', hone]; simp)]
    obtain ⟨q, hq, h1, h2⟩ := prependL_free_head (p.modLease i decRef) i b
      (by rw [isEmptyCk_modLease]; exact hfree)
    exact ⟨q, hq, h1, by simpa using h2⟩
  · intro hname hnot
    rw [relLeaseAddr, if_neg hc1, if_neg hc2, if_neg hc3]
    rw [if_neg (show ¬ ((p.modLease i decRef).leaseD i).reusable_name ≠ none by
          rw [hname']; simp [hname])]
    rw [if_pos (show ((p.modLease i decRef).leaseD i).lease_refcount ≠ 0 by
          rw [hrc']; omega)]

/-- Concrete pool for the C5 witness: one lease, held once, with a
reusable name. -/
def pW : IpPool :=
  { size := 1, free_list := emptyLHead, nr_in_use := 1, nr_leases := 1,
    leases := [{ lease_refcount := 1, free_entry := emptyEntry,
                 reusable_entry := emptyEntry, reusable_name := some (strBytes "a"),
                 reusable_bucket := emptyLHead }] }

/-- C5, witness: the reusable branch applied to `pW`. -/
theorem C5_release_ordering_witness :
    ∃ q, relLeaseAddr pW 0 = .ok q ∧ q.free_list.last = some 0 ∧
      q.free_list.nr = u32inc pW.free_list.nr :=
  (C5_release_ordering pW 0 true (by decide) (by decide) (by decide) (by decide)
      (by rfl)).1 (by decide) (by decide)

/-! ## Pool registry: find_addresspool / install_addresspool
(addresspool.c:642-723)

Addresses are modelled as naturals (`addrcmp` on same-family addresses is
numeric comparison); a pool in the registry is identified by its range, and
the registry is the linked list of installed pools, newest first. -/

/-- Embedding of `ip_range`: inclusive bounds.  `stop` is the C field `end`
(a Lean keyword). -/
structure IpRange where
  start : Nat
  stop : Nat
deriving DecidableEq, Repr

/-- Embedding of `find_addresspool` (addresspool.c:642): scan the registry;
exact endpoint match returns the pool, strictly-before/strictly-after is
skipped, anything else is the partial-overlap error. -/
def find_addresspool (r : IpRange) (pools : List IpRange) :
    Except String (Option IpRange) :=
  match pools with
  | [] => .ok none
  | b :: rest =>
    if r.start = b.start ∧ r.stop = b.stop then .ok (some b)
    else if (if r.start < b.start then r.stop < b.start else r.start > b.stop) then
      find_addresspool r rest
    else .error "ERROR: partial overlap of addresspool"

/-- Embedding of `install_addresspool` (addresspool.c:681): on a find error
nothing is installed (pool result NULL); an exact match is reused; otherwise
a new pool is linked at the registry head.  Result: (new registry, returned
pool). -/
def install_addresspool (r : IpRange) (pools : List IpRange) :
    List IpRange × Option IpRange :=
  match find_addresspool r pools with
  | .error _ => (pools, none)
  | .ok (some p) => (pools, some p)
  | .ok none => (r :: pools, some r)

/-- Two ranges are disjoint: one lies entirely before the other. -/
def rangeDisjoint (a b : IpRange) : Prop := a.stop < b.start ∨ b.stop < a.start

instance (a b : IpRange) : Decidable (rangeDisjoint a b) := by
  unfold rangeDisjoint
  infer_instance

/-- C6: for a well-formed registry (non-empty ranges, pairwise disjoint —
the invariant install maintains), find_addresspool returns the pool whose
endpoints exactly equal `r`'s when there is one, returns no pool when every
registered pool lies entirely before or after `r`, and otherwise returns the
partial-overlap error; on that error install_addresspool installs nothing
and the registry is unchanged. -/
theorem C6_find_install_overlap (r : IpRange) (ps : List IpRange)
    (hr : r.start ≤ r.stop) (hps : ∀ p ∈ ps, p.start ≤ p.stop)
    (hpair : ps.Pairwise rangeDisjoint) :
    (r ∈ ps → find_addresspool r ps = .ok (some r)) ∧
    ((∀ p ∈ ps, rangeDisjoint p r) →
       find_addresspool r ps = .ok none ∧
       install_addresspool r ps = (r :: ps, some r)) ∧
    ((r ∉ ps ∧ ∃ p ∈ ps, ¬ rangeDisjoint p r) →
       find_addresspool r ps = .error "ERROR: partial overlap of addresspool" ∧
       install_addresspool r ps = (ps, none)) := by
  induction ps with
  | nil =>
    refine ⟨by simp, ?_, ?_⟩
    · intro _
      exact ⟨rfl, rfl⟩
    · rintro ⟨-, p, hp, -⟩
      simp at hp
  | cons b rest ih =>
    have hb : b.start ≤ b.stop := hps b (by simp)
    have hrest : ∀ p ∈ rest, p.start ≤ p.stop := fun p hp => hps p (by simp [hp])
    have hbdis : ∀ p ∈ rest, rangeDisjoint b p := (List.pairwise_cons.mp hpair).1
    have hpairR : rest.Pairwise rangeDisjoint := (List.pairwise_cons.mp hpair).2
    obtain ⟨ih1, ih2, ih3⟩ := ih hrest hpairR
    have skip_of_disj : rangeDisjoint b r →
        find_addresspool r (b :: rest) = find_addresspool r rest := by
      intro hd
      rw [find_addresspool]
      rw [if_neg, if_pos]
      · rcases hd with h | h
        · rw [if_neg (by omega)]
          omega
        · rw [if_pos (by omega)]
          omega
      · rintro ⟨h1, h2⟩
        rcases hd with h | h <;> omega
    refine ⟨?_, ?_, ?_⟩
    · intro hmem
      rcases List.mem_cons.mp hmem with hbr | hmemR
      · subst hbr
        rw [find_addresspool, if_pos ⟨rfl, rfl⟩]
      · have hd : rangeDisjoint b r := hbdis r hmemR
        rw [skip_of_disj hd]
        exact ih1 hmemR
    · intro hall
      have hd : rangeDisjoint b r := hall b (by simp)
      have hallR : ∀ p ∈ rest, rangeDisjoint p r := fun p hp => hall p (by simp [hp])
      have hfind : find_addresspool r (b :: rest) = .ok none := by
        rw [skip_of_disj hd]
        exact (ih2 hallR).1
      exact ⟨hfind, by rw [install_addresspool, hfind]⟩
    · rintro ⟨hnm, p, hp, hov⟩
      have hbr : b ≠ r := by
        intro h
        subst h
        exact hnm (by simp)
      by_cases hd : rangeDisjoint b r
      · have hpR : p ∈ rest := by
          rcases List.mem_cons.mp hp with hpb | h
          · exact absurd (hpb ▸ hd) hov
          · exact h
        have hnmR : r ∉ rest := fun h => hnm (by simp [h])
        have hfind := (ih3 ⟨hnmR, p, hpR, hov⟩).1
        have hfind2 : find_addresspool r (b :: rest)
            = .error "ERROR: partial overlap of addresspool" := by
          rw [skip_of_disj hd, hfind]
        exact ⟨hfind2, by rw [install_addresspool, hfind2]⟩
      · have hfind : find_addresspool r (b :: rest)
            = .error "ERROR: partial overlap of addresspool" := by
          rw [find_addresspool, if_neg, if_neg]
          · unfold rangeDisjoint at hd
            split <;> omega
          · rintro ⟨h1, h2⟩
            exact hbr (by cases b; cases r; simp_all)
        exact ⟨hfind, by rw [install_addresspool, hfind]⟩

/-- C6, witness: an empty registry accepts any range. -/
theorem C6_find_install_overlap_witness :
    find_addresspool ⟨10, 20⟩ [] = .ok none ∧
    install_addresspool ⟨10, 20⟩ [] = ([⟨10, 20⟩], some ⟨10, 20⟩) :=
  (C6_find_install_overlap ⟨10, 20⟩ [] (by decide) (by simp) (by simp)).2.1
    (by simp)

/-! ## Error-shape and preservation lemmas towards claim C9 -/

@[simp] lemma setL_nr_leases (p : IpPool) (loc : ListLoc) (L : LHead) :
    (p.setL loc L).nr_leases = p.nr_leases := by
  cases loc <;> rfl

@[simp] lemma modEntry_nr_leases (p : IpPool) (i : Nat) (k : EKind) (f : Entry → Entry) :
    (p.modEntry i k f).nr_leases = p.nr_leases := rfl

lemma isEmptyCk_err (p : IpPool) (loc : ListLoc) (e : PoolErr)
    (h : isEmptyCk p loc = .error e) : e = .assertFailed := by
  simp only [isEmptyCk] at h
  split at h
  · split at h <;> simp_all
  · split at h
    · split at h <;> simp_all
    · simp_all

lemma isEmptyCk_false_pos (p : IpPool) (loc : ListLoc)
    (h : isEmptyCk p loc = .ok false) : 0 < p.nr_leases := by
  simp only [isEmptyCk] at h
  split at h
  · split at h <;> simp_all
  · split at h
    · split at h
      · rename_i hcond
        omega
      · simp_all
    · simp_all

lemma removeFirstStep_err (p : IpPool) (loc : ListLoc) (ek : EKind) (i : Nat) (e : PoolErr)
    (h : removeFirstStep p loc ek i = .error e) : e = .assertFailed := by
  simp only [removeFirstStep] at h
  split at h
  · simp_all
  · split at h
    · simp_all
    · split at h <;> simp_all

lemma removeFirstStep_ok_nr (p : IpPool) (loc : ListLoc) (ek : EKind) (i : Nat) (q : IpPool)
    (h : removeFirstStep p loc ek i = .ok q) : q.nr_leases = p.nr_leases := by
  simp only [removeFirstStep] at h
  split at h
  · injection h with h
    subst h
    simp
  · split at h
    · simp_all
    · split at h
      · injection h with h
        subst h
        simp
      · simp_all

lemma removeLastStep_err (p : IpPool) (loc : ListLoc) (ek : EKind) (i : Nat) (e : PoolErr)
    (h : removeLastStep p loc ek i = .error e) : e = .assertFailed := by
  simp only [removeLastStep] at h
  split at h
  · simp_all
  · split at h
    · simp_all
    · split at h <;> simp_all

lemma removeLastStep_ok_nr (p : IpPool) (loc : ListLoc) (ek : EKind) (i : Nat) (q : IpPool)
    (h : removeLastStep p loc ek i = .ok q) : q.nr_leases = p.nr_leases := by
  simp only [removeLastStep] at h
  split at h
  · injection h with h
    subst h
    simp
  · split at h
    · simp_all
    · split at h
      · injection h with h
        subst h
        simp
      · simp_all

lemma removeL_err (p : IpPool) (loc : ListLoc) (ek : EKind) (i : Nat) (e : PoolErr)
    (h : removeL p loc ek i = .error e) : e = .assertFailed := by
  simp only [removeL] at h
  split at h
  · rename_i e1 h1
    injection h with h
    subst h
    exact removeFirstStep_err _ _ _ _ _ h1
  · split at h
    · rename_i e2 h2
      injection h with h
      subst h
      exact removeLastStep_err _ _ _ _ _ h2
    · simp_all

lemma removeL_ok_nr (p : IpPool) (loc : ListLoc) (ek : EKind) (i : Nat) (q : IpPool)
    (h : removeL p loc ek i = .ok q) : q.nr_leases = p.nr_leases := by
  simp only [removeL] at h
  split at h
  · simp_all
  · rename_i p1 h1
    split at h
    · simp_all
    · rename_i p2 h2
      injection h with h
      subst h
      simp [removeFirstStep_ok_nr _ _ _ _ _ h1, removeLastStep_ok_nr _ _ _ _ _ h2]

lemma appendL_err (p : IpPool) (loc : ListLoc) (ek : EKind) (i : Nat) (e : PoolErr)
    (h : appendL p loc ek i = .error e) : e = .assertFailed := by
  simp only [appendL] at h
  split at h
  · rename_i e1 h1
    injection h with h
    subst h
    exact isEmptyCk_err _ _ _ h1
  · simp_all
  · split at h <;> simp_all

lemma appendL_ok_nr (p : IpPool) (loc : ListLoc) (ek : EKind) (i : Nat) (q : IpPool)
    (h : appendL p loc ek i = .ok q) : q.nr_leases = p.nr_leases := by
  simp only [appendL] at h
  split at h
  · simp_all
  · injection h with h
    subst h
    simp
  · split at h
    · simp_all
    · injection h with h
      subst h
      simp

lemma prependL_err (p : IpPool) (loc : ListLoc) (ek : EKind) (i : Nat) (e : PoolErr)
    (h : prependL p loc ek i = .error e) : e = .assertFailed := by
  simp only [prependL] at h
  split at h
  · rename_i e1 h1
    injection h with h
    subst h
    exact isEmptyCk_err _ _ _ h1
  · simp_all
  · split at h <;> simp_all

lemma prependL_ok_nr (p : IpPool) (loc : ListLoc) (ek : EKind) (i : Nat) (q : IpPool)
    (h : prependL p loc ek i = .ok q) : q.nr_leases = p.nr_leases := by
  simp only [prependL] at h
  split at h
  · simp_all
  · injection h with h
    subst h
    simp
  · split at h
    · simp_all
    · injection h with h
      subst h
      simp

lemma bucketOf_pos (n : Nat) (name : List Nat) (h : 0 < n) :
    bucketOf n name = .ok (hasher name % n) := by
  unfold bucketOf
  rw [if_neg (by omega)]

lemma hashLease_no_div (p : IpPool) (i : Nat) (hp : 0 < p.nr_leases) :
    hashLease p i ≠ .error .divZero := by
  unfold hashLease
  split
  · split
    · simp
    · rw [bucketOf_pos _ _ hp]
      intro hc
      have hc2 := appendL_err _ _ _ _ _ hc
      simp_all
  · simp

lemma hashLease_ok_nr (p : IpPool) (i : Nat) (q : IpPool)
    (h : hashLease p i = .ok q) : q.nr_leases = p.nr_leases := by
  simp only [hashLease] at h
  split at h
  · split at h
    · simp_all
    · rename_i nm hnm
      rcases hb : bucketOf p.nr_leases nm with e | b <;> rw [hb] at h
      · simp_all
      · exact appendL_ok_nr _ _ _ _ _ h
  · simp_all

lemma recoverLoop_no_div (thatName : List Nat) (fuel : Nat) :
    ∀ (p : IpPool) (cur : Option Nat),
      recoverLoop thatName p cur fuel ≠ .error .divZero := by
  induction fuel with
  | zero =>
    intro p cur
    cases cur <;> simp [recoverLoop]
  | succ n ih =>
    intro p cur
    cases cur with
    | none => simp [recoverLoop]
    | some c =>
      simp only [recoverLoop]
      by_cases hlt : c < p.nr_leases
      · rw [if_pos hlt]
        rcases hnm : (p.leaseD c).reusable_name with _ | nm
        · simp
        · simp only []
          by_cases hname : nm = thatName
          · rw [if_pos hname]
            by_cases hrc : (p.leaseD c).lease_refcount = 0
            · rw [if_pos hrc]
              rcases hrm : removeL p .freeList .freeE c with e1 | p1
              · intro hc
                have hc2 : (Except.error e1 : Except PoolErr (IpPool × Option Nat))
                    = .error .divZero := hc
                injection hc2 with hc2
                subst hc2
                have := removeL_err _ _ _ _ _ hrm
                simp_all
              · intro hc
                exact Except.noConfusion hc
            · rw [if_neg hrc]
              intro hc
              exact Except.noConfusion hc
          · rw [if_neg hname]
            exact ih _ _
      · rw [if_neg hlt]
        simp

lemma recoverLease_no_div (p : IpPool) (thatName : List Nat) :
    recoverLease p thatName ≠ .error .divZero := by
  unfold recoverLease
  split
  · simp
  · rename_i hnz
    rw [bucketOf_pos _ _ (by omega)]
    show (match isEmptyCk p (.bucket (hasher thatName % p.nr_leases)) with
          | .error e => .error e
          | .ok true => .ok (p, none)
          | .ok false => recoverLoop thatName p
              (p.getL (.bucket (hasher thatName % p.nr_leases))).first (p.nr_leases + 1))
        ≠ Except.error PoolErr.divZero
    rcases he : isEmptyCk p (.bucket (hasher thatName % p.nr_leases)) with e | b
    · intro hc
      have hc2 : (Except.error e : Except PoolErr (IpPool × Option Nat))
          = .error .divZero := hc
      injection hc2 with hc2
      subst hc2
      have := isEmptyCk_err _ _ _ he
      simp_all
    · cases b
      · exact recoverLoop_no_div _ _ _ _
      · intro hc
        exact Except.noConfusion hc

lemma prependNewSlots_err (idxs : List Nat) :
    ∀ (p : IpPool) (e : PoolErr), prependNewSlots p idxs = .error e → e = .assertFailed := by
  induction idxs with
  | nil =>
    intro p e h
    simp [prependNewSlots] at h
  | cons l rest ih =>
    intro p e h
    simp only [prependNewSlots] at h
    split at h
    · rename_i e1 h1
      injection h with h
      subst h
      exact prependL_err _ _ _ _ _ h1
    · exact ih _ _ h

lemma prependNewSlots_ok_nr (idxs : List Nat) :
    ∀ (p q : IpPool), prependNewSlots p idxs = .ok q → q.nr_leases = p.nr_leases := by
  induction idxs with
  | nil =>
    intro p q h
    simp only [prependNewSlots] at h
    injection h with h
    subst h
    rfl
  | cons l rest ih =>
    intro p q h
    simp only [prependNewSlots] at h
    split at h
    · simp_all
    · rename_i q1 h1
      have h3 := ih _ _ h
      have h2 := prependL_ok_nr _ _ _ _ _ h1
      simp_all

lemma rehashOld_no_div (idxs : List Nat) :
    ∀ (p : IpPool), 0 < p.nr_leases → rehashOld p idxs ≠ .error .divZero := by
  induction idxs with
  | nil =>
    intro p _
    simp [rehashOld]
  | cons l rest ih =>
    intro p hp
    simp only [rehashOld]
    split
    · rcases hh : hashLease p l with e | q
      · intro hc
        have hc2 : (Except.error e : Except PoolErr IpPool) = .error .divZero := hc
        injection hc2 with hc2
        subst hc2
        exact hashLease_no_div p l hp hh
      · exact ih q (by rw [hashLease_ok_nr _ _ _ hh]; exact hp)
    · exact ih p hp

lemma rehashOld_ok_nr (idxs : List Nat) :
    ∀ (p q : IpPool), rehashOld p idxs = .ok q → q.nr_leases = p.nr_leases := by
  induction idxs with
  | nil =>
    intro p q h
    simp only [rehashOld] at h
    injection h with h
    subst h
    rfl
  | cons l rest ih =>
    intro p q h
    simp only [rehashOld] at h
    split at h
    · rcases hh : hashLease p l with e | q1 <;> rw [hh] at h
      · simp_all
      · have h3 := ih _ _ h
        have h2 := hashLease_ok_nr _ _ _ hh
        simp_all
    · exact ih _ _ h

lemma initOldSlots_nr (p : IpPool) (k : Nat) :
    (initOldSlots p k).nr_leases = p.nr_leases := by
  unfold initOldSlots
  generalize List.range k = l
  induction l generalizing p with
  | nil => rfl
  | cons x xs ih =>
    simp only [List.foldl_cons]
    rw [ih]
    simp

lemma growTarget_pos (p : IpPool) (hlt : p.nr_leases < p.size)
    (h31 : p.nr_leases < 2147483648) : 0 < growTarget p := by
  unfold growTarget
  split
  · omega
  · rw [Nat.mod_eq_of_lt (show p.nr_leases * 2 < U32 by unfold U32; omega)]
    omega

lemma growPool_no_div (p : IpPool) (hlt : p.nr_leases < p.size)
    (h31 : p.nr_leases < 2147483648) :
    growPool p ≠ .error .divZero := by
  unfold growPool
  rcases hps : prependNewSlots (initOldSlots (growArray p) p.nr_leases)
      (List.range' p.nr_leases (growTarget p - p.nr_leases)) with e | pN
  · intro hc
    have hc2 : (Except.error e : Except PoolErr IpPool) = .error .divZero := hc
    injection hc2 with hc2
    subst hc2
    have := prependNewSlots_err _ _ _ hps
    simp_all
  · have hnr : pN.nr_leases = growTarget p := by
      rw [prependNewSlots_ok_nr _ _ _ hps, initOldSlots_nr]
      rfl
    exact rehashOld_no_div _ pN (by rw [hnr]; exact growTarget_pos p hlt h31)

lemma growPool_ok_pos (p : IpPool) (q : IpPool) (hlt : p.nr_leases < p.size)
    (h31 : p.nr_leases < 2147483648) (h : growPool p = .ok q) : 0 < q.nr_leases := by
  unfold growPool at h
  rcases hps : prependNewSlots (initOldSlots (growArray p) p.nr_leases)
      (List.range' p.nr_leases (growTarget p - p.nr_leases)) with e | pN <;>
    rw [hps] at h
  · simp_all
  · have hnr : pN.nr_leases = growTarget p := by
      rw [prependNewSlots_ok_nr _ _ _ hps, initOldSlots_nr]
      rfl
    rw [rehashOld_ok_nr _ _ _ h, hnr]
    exact growTarget_pos p hlt h31

lemma headIdx_err (p : IpPool) (loc : ListLoc) (e : PoolErr)
    (h : headIdx p loc = .error e) : e = .assertFailed := by
  simp only [headIdx] at h
  split at h
  · rename_i e1 h1
    injection h with h
    subst h
    exact isEmptyCk_err _ _ _ h1
  · simp_all
  · simp_all

lemma leaseStealCheck_no_div (p3 : IpPool) (i : Nat) (thatName : List Nat)
    (hp : 0 < p3.nr_leases) : leaseStealCheck p3 i thatName ≠ .error .divZero := by
  unfold leaseStealCheck
  split
  · rw [bucketOf_pos _ _ hp]
    dsimp only
    rcases hrm : removeL p3 (.bucket (hasher thatName % p3.nr_leases)) .reusableE i
        with e | p4 <;> dsimp only
    · intro hc
      injection hc with hc
      subst hc
      have := removeL_err _ _ _ _ _ hrm
      simp_all
    · intro hc
      exact Except.noConfusion hc
  · simp

lemma leaseStealCheck_ok_nr (p3 : IpPool) (i : Nat) (thatName : List Nat) (q : IpPool)
    (h : leaseStealCheck p3 i thatName = .ok q) : q.nr_leases = p3.nr_leases := by
  simp only [leaseStealCheck] at h
  split at h
  · rcases hb : bucketOf p3.nr_leases thatName with e | b <;> rw [hb] at h <;>
      dsimp only at h
    · simp_all
    · rcases hrm : removeL p3 (.bucket b) .reusableE i with e | p4 <;> rw [hrm] at h <;>
        dsimp only at h
      · simp_all
      · injection h with h
        subst h
        simp [removeL_ok_nr _ _ _ _ _ hrm]
  · simp_all

lemma leaseBind_no_div (p4 : IpPool) (i : Nat) (reusable : Bool) (thatName : List Nat)
    (hp : 0 < p4.nr_leases) : leaseBind p4 i reusable thatName ≠ .error .divZero := by
  unfold leaseBind
  split
  · exact hashLease_no_div _ _ (by simpa using hp)
  · simp

lemma leaseTakeHead_no_div (p2 : IpPool) (reusable : Bool) (thatName : List Nat)
    (hp : 0 < p2.nr_leases) : leaseTakeHead p2 reusable thatName ≠ .error .divZero := by
  unfold leaseTakeHead
  rcases hh : headIdx p2 .freeList with e | oi
  · dsimp only
    intro hc
    injection hc with hc
    subst hc
    have := headIdx_err _ _ _ hh
    simp_all
  · rcases oi with _ | i <;> dsimp only
    · simp
    · rcases hrm : removeL p2 .freeList .freeE i with e | p3 <;> dsimp only
      · intro hc
        injection hc with hc
        subst hc
        have := removeL_err _ _ _ _ _ hrm
        simp_all
      · have hp3 : 0 < p3.nr_leases := by
          rw [removeL_ok_nr _ _ _ _ _ hrm]
          exact hp
        rcases hsc : leaseStealCheck p3 i thatName with e | p4 <;> dsimp only
        · intro hc
          injection hc with hc
          subst hc
          exact leaseStealCheck_no_div p3 i thatName hp3 hsc
        · have hp4 : 0 < p4.nr_leases := by
            rw [leaseStealCheck_ok_nr _ _ _ _ hsc]
            exact hp3
          rcases hbd : leaseBind p4 i reusable thatName with e | p5 <;> dsimp only
          · intro hc
            injection hc with hc
            subst hc
            exact leaseBind_no_div p4 i reusable thatName hp4 hbd
          · intro hc
            exact Except.noConfusion hc

/-- Recovery that finds nothing leaves the pool untouched: the walk only
mutates on the name-match path, which reports the found index. -/
lemma recoverLoop_none_eq (thatName : List Nat) (fuel : Nat) :
    ∀ (p q : IpPool) (cur : Option Nat),
      recoverLoop thatName p cur fuel = .ok (q, none) → q = p := by
  induction fuel with
  | zero =>
    intro p q cur h
    cases cur with
    | none =>
      injection h with h
      exact (congrArg Prod.fst h).symm
    | some c => simp [recoverLoop] at h
  | succ n ih =>
    intro p q cur h
    cases cur with
    | none =>
      simp only [recoverLoop] at h
      injection h with h
      exact (congrArg Prod.fst h).symm
    | some c =>
      simp only [recoverLoop] at h
      split at h
      · split at h
        · simp_all
        · split at h
          · split at h
            · simp_all
            · injection h with h
              have h2 := congrArg Prod.snd h
              simp at h2
          · exact ih _ _ _ h
      · simp_all

lemma recoverLease_none_eq (p : IpPool) (n : List Nat) (q : IpPool)
    (h : recoverLease p n = .ok (q, none)) : q = p := by
  unfold recoverLease at h
  split at h
  · injection h with h
    exact (congrArg Prod.fst h).symm
  · rename_i hnz
    rw [bucketOf_pos _ _ (by omega)] at h
    dsimp only at h
    rcases he : isEmptyCk p (.bucket (hasher n % p.nr_leases)) with e | b <;>
      rw [he] at h <;> try dsimp only at h
    · simp at h
    · cases b
      · exact recoverLoop_none_eq _ _ _ _ _ h
      · injection h with h
        exact (congrArg Prod.fst h).symm

/-! ## The 32-bit wrap of the grow step's doubling (claim C9) -/

@[simp] lemma modLease_length (p : IpPool) (j : Nat) (f : Lease → Lease) :
    (p.modLease j f).leases.length = p.leases.length := by
  simp [IpPool.modLease]

lemma modLease_leaseD_ne (p : IpPool) (j i : Nat) (f : Lease → Lease) (hne : i ≠ j) :
    (p.modLease j f).leaseD i = p.leaseD i := by
  simp [IpPool.modLease, IpPool.leaseD, List.getD,
    List.getElem?_set_ne (show j ≠ i from fun h => hne h.symm)]

lemma foldl_modLease_leaseD_notmem (g : Lease → Lease) (idxs : List Nat) :
    ∀ (p : IpPool) (i : Nat), i ∉ idxs →
      ((idxs.foldl (fun q l => q.modLease l g) p).leaseD i) = p.leaseD i := by
  induction idxs with
  | nil =>
    intro p i _
    rfl
  | cons x xs ih =>
    intro p i hmem
    have h1 : i ∉ xs := fun h => hmem (List.mem_cons_of_mem _ h)
    have h2 : i ≠ x := fun h => hmem (h ▸ List.mem_cons_self _ _)
    simp only [List.foldl_cons]
    rw [ih _ i h1, modLease_leaseD_ne _ _ _ _ h2]

/-- The destroy loop's effect on slot 0: `reusable_entry` and
`reusable_bucket` re-initialised, everything else (in particular
`reusable_name`) untouched. -/
lemma initOldSlots_leaseD_zero (p : IpPool) (k : Nat) (hk : 0 < k)
    (hlen : 0 < p.leases.length) :
    (initOldSlots p k).leaseD 0 =
      { p.leaseD 0 with reusable_entry := emptyEntry, reusable_bucket := emptyLHead } := by
  obtain ⟨m, rfl⟩ : ∃ m, k = m + 1 := ⟨k - 1, by omega⟩
  unfold initOldSlots
  rw [List.range_succ_eq_map]
  simp only [List.foldl_cons]
  rw [foldl_modLease_leaseD_notmem _ _ _ 0 (by simp)]
  exact leaseD_modLease_self p 0 _ hlen

/-- The first lease count at which the C's 32-bit doubling wraps: 2^31. -/
def POW31 : Nat := 2147483648

/-- A slot of the overflow state: an active reusable lease (refcount 1,
name bound, off the free list).  Its chain entries are immaterial to the
counterexample: the grow block's destroy loop re-initialises every old
slot's `reusable_entry`/`reusable_bucket` before the rebuild runs. -/
def wrapLease : Lease :=
  { lease_refcount := 1, free_entry := emptyEntry, reusable_entry := emptyEntry,
    reusable_name := some (strBytes "a"), reusable_bucket := emptyLHead }

/-- C9 counterexample state: a pool of 2^31 + 1 addresses whose 2^31
materialised slots are all held by reusable clients, so the free list is
empty.  Reachable in principle: the doubling sequence 1, 2, 4, ... reaches
`min(2^30 * 2, size) = 2^31` exactly when `size > 2^31`, and the spec keeps
IPv6 pools of up to 2^32 addresses in scope (`SizeTruncated` saturates at
`U32_MAX`). -/
def pOverflow : IpPool :=
  { size := POW31 + 1, free_list := emptyLHead, nr_in_use := POW31,
    nr_leases := POW31, leases := List.replicate POW31 wrapLease }

/-- The pool right after the wrap-case reallocation: `nr_leases` is 0 but
the destroy and rebuild loops still iterate over the 2^31 old slots (in C
the shrinking `resize_things` frees them and the loops touch stale memory;
the model keeps their contents, the benign reading of that access). -/
def pGrown : IpPool :=
  { size := POW31 + 1, free_list := emptyLHead, nr_in_use := POW31,
    nr_leases := 0, leases := List.replicate POW31 wrapLease }

/-- C9, amended: `recover_lease` still returns no lease immediately when
`nr_leases` is 0, before any bucket index is computed; and for every pool
state whose `nr_leases` is below 2^31 — so that the grow step's 32-bit
doubling `nr_leases * 2` cannot wrap to 0 — `lease_an_address` never
evaluates a bucket index `hash % nr_leases` with a zero divisor (the
computations in `recover_lease`, HASH and the steal path run only once
`nr_leases > 0`). -/
theorem C9_no_zero_divisor_buckets :
    (∀ (p : IpPool) (name : List Nat), p.nr_leases = 0 →
       recoverLease p name = .ok (p, none)) ∧
    (∀ (p : IpPool) (reusable : Bool) (name : List Nat),
       p.nr_leases < 2147483648 →
       leaseAnAddress p reusable name ≠ .error .divZero) := by
  constructor
  · intro p name h
    unfold recoverLease
    rw [if_pos h]
  · intro p0 reusable name h31
    unfold leaseAnAddress
    rcases hrec : (if reusable then recoverLease p0 name else .ok (p0, none))
        with e | ⟨p1, oi⟩
    · dsimp only
      intro hc
      injection hc with hc
      subst hc
      cases reusable with
      | true => exact recoverLease_no_div p0 name (by simpa using hrec)
      | false => simp at hrec
    · rcases oi with _ | i <;> dsimp only
      · have hp1 : p1.nr_leases < 2147483648 := by
          cases reusable with
          | true =>
            rw [if_pos rfl] at hrec
            rw [recoverLease_none_eq _ _ _ hrec]
            exact h31
          | false =>
            rw [if_neg Bool.false_ne_true] at hrec
            injection hrec with hrec
            rw [show p1 = p0 from (congrArg Prod.fst hrec).symm]
            exact h31
        rcases hemp : isEmptyCk p1 .freeList with e | empty <;> dsimp only
        · intro hc
          injection hc with hc
          subst hc
          have := isEmptyCk_err _ _ _ hemp
          simp_all
        · cases empty with
          | true =>
            rw [if_pos rfl]
            by_cases hsz : p1.size ≤ p1.nr_leases
            · rw [if_pos hsz]
              intro hc
              exact Except.noConfusion hc
            · rw [if_neg hsz]
              rcases hg : growPool p1 with e | p2 <;> dsimp only
              · intro hc
                injection hc with hc
                subst hc
                exact growPool_no_div p1 (by omega) hp1 hg
              · exact leaseTakeHead_no_div p2 reusable name
                  (growPool_ok_pos p1 p2 (by omega) hp1 hg)
          | false =>
            rw [if_neg (by simp)]
            exact leaseTakeHead_no_div p1 reusable name
              (isEmptyCk_false_pos _ _ hemp)
      · intro hc
        exact Except.noConfusion hc

/-- C9, witness: both parts at concrete inputs (a freshly installed pool
has `nr_leases = 0 < 2^31`). -/
theorem C9_no_zero_divisor_buckets_witness :
    recoverLease (installPool 5) (strBytes "a") = .ok (installPool 5, none) ∧
    leaseAnAddress (installPool 5) true (strBytes "a") ≠ .error .divZero :=
  ⟨C9_no_zero_divisor_buckets.1 (installPool 5) (strBytes "a") rfl,
   C9_no_zero_divisor_buckets.2 (installPool 5) true (strBytes "a") (by decide)⟩

lemma pGrown_leaseD_zero : pGrown.leaseD 0 = wrapLease := by
  have h0 : (List.replicate POW31 wrapLease)[0]? = some wrapLease := by
    rw [List.getElem?_replicate, if_pos (by decide)]
  simp [IpPool.leaseD, pGrown, List.getD, h0]

lemma growArray_pOverflow : growArray pOverflow = pGrown := by
  unfold growArray
  rw [show growTarget pOverflow = 0 from rfl]
  simp [pOverflow, pGrown, List.take_replicate, Nat.zero_sub, min_self]

lemma initOld_pGrown_leaseD_zero :
    (initOldSlots pGrown pOverflow.nr_leases).leaseD 0 = wrapLease := by
  rw [initOldSlots_leaseD_zero pGrown pOverflow.nr_leases (by decide)
        (by rw [show pGrown.leases = List.replicate POW31 wrapLease from rfl,
                List.length_replicate]
            decide),
      pGrown_leaseD_zero]
  rfl

lemma initOld_pGrown_nr :
    (initOldSlots pGrown pOverflow.nr_leases).nr_leases = 0 := by
  rw [initOldSlots_nr]
  rfl

lemma hashLease_wrap_divZero :
    hashLease (initOldSlots pGrown pOverflow.nr_leases) 0 = .error .divZero := by
  unfold hashLease
  have hE : (initOldSlots pGrown pOverflow.nr_leases).entryAt 0 .reusableE
      = emptyEntry := by
    simp only [IpPool.entryAt, initOld_pGrown_leaseD_zero]
    rfl
  rw [hE, if_pos ⟨rfl, rfl⟩, initOld_pGrown_nr, initOld_pGrown_leaseD_zero,
      show wrapLease.reusable_name = some (strBytes "a") from rfl]
  rfl

lemma rehashOld_cons (p : IpPool) (l : Nat) (rest : List Nat) :
    rehashOld p (l :: rest) =
      (if (p.leaseD l).reusable_name ≠ none then
        match hashLease p l with
        | .error e => .error e
        | .ok q => rehashOld q rest
      else rehashOld p rest) := rfl

lemma growPool_pOverflow : growPool pOverflow = .error .divZero := by
  have hrange : List.range pOverflow.nr_leases
      = 0 :: List.map Nat.succ (List.range 2147483647) := by
    rw [show pOverflow.nr_leases = 2147483647 + 1 from rfl]
    exact List.range_succ_eq_map _
  have h1 : prependNewSlots (initOldSlots pGrown pOverflow.nr_leases)
      (List.range' pOverflow.nr_leases (growTarget pOverflow - pOverflow.nr_leases))
      = .ok (initOldSlots pGrown pOverflow.nr_leases) := by
    rw [show List.range' pOverflow.nr_leases
          (growTarget pOverflow - pOverflow.nr_leases) = [] from rfl]
    rfl
  unfold growPool
  rw [growArray_pOverflow, h1]
  show rehashOld (initOldSlots pGrown pOverflow.nr_leases)
      (List.range pOverflow.nr_leases) = Except.error PoolErr.divZero
  rw [hrange]
  rw [rehashOld_cons]
  rw [if_pos (by rw [initOld_pGrown_leaseD_zero]; decide), hashLease_wrap_divZero]

lemma leaseAnAddress_pOverflow_divZero :
    leaseAnAddress pOverflow false (strBytes "b") = .error .divZero := by
  unfold leaseAnAddress
  rw [if_neg Bool.false_ne_true]
  show (match isEmptyCk pOverflow .freeList with
        | .error e => .error e
        | .ok empty =>
          if empty then
            if pOverflow.size ≤ pOverflow.nr_leases then
              .ok (pOverflow, .err "no free address in addresspool")
            else
              match growPool pOverflow with
              | .error e => .error e
              | .ok p2 => leaseTakeHead p2 false (strBytes "b")
          else leaseTakeHead pOverflow false (strBytes "b"))
      = Except.error PoolErr.divZero
  rw [show isEmptyCk pOverflow .freeList = .ok true from rfl,
      if_neg (show ¬ pOverflow.size ≤ pOverflow.nr_leases by decide),
      growPool_pOverflow]
  rfl

/-- C9 counterexample: the claim's "never computes hash % nr_leases with a
zero divisor" is false without a bound on `nr_leases`. At a pool state with
`nr_leases = 2^31 < size`, the 32-bit unsigned doubling `nr_leases * 2` of
the grow block (addresspool.c:508) wraps to 0, so the grown pool has
`nr_leases = min(0, size) = 0` and the rebuild loop's HASH (addresspool.c:520)
divides by zero: `lease_an_address` reports the distinguished divZero error.
The state is not exhausted (`nr_leases < size`), `recover_lease` is not even
entered (`reusable = false`), and the wrapped product is exactly 0. -/
theorem C9_grow_wrap_zero_divisor_cex :
    pOverflow.nr_leases * 2 % U32 = 0 ∧
    pOverflow.nr_leases < pOverflow.size ∧
    growTarget pOverflow = 0 ∧
    leaseAnAddress pOverflow false (strBytes "b") = .error .divZero :=
  ⟨by decide, by decide, rfl, leaseAnAddress_pOverflow_divZero⟩
